import Mathlib

/-!
Shallow embedding of `src/variables.cpp` of the sse-journal repository
(Skyrim SE Journal mod), together with proofs about its behaviour.

Strings (`std::string`) are modelled as `List Char`; pointer-sized machine
integers (`std::uintptr_t`) as `Nat` reduced modulo `2 ^ 64` at every
arithmetic step where the machine would wrap; 32-bit floats as rational
numbers carried inside a record that also keeps the classification bits
(`std::isnormal`, `std::isfinite`) the source code inspects.  Memory is a
function from addresses to pointer-sized values.
-/

namespace SSEJournal

/-- Pointer arithmetic of the source is on `std::uintptr_t`, i.e. modulo `2 ^ 64`. -/
def ptrMod : Nat := 2 ^ 64

/-- Embeds `relocation<T,N>::obtain` (variables.cpp lines 54-63): starting from
the base address, for each offset but the last, read the pointer-sized value at
`cursor + offset`; a zero read aborts with `none` (the C++ returns `nullptr`);
the final offset is added to the cursor and returned without a read.  The
offset array of the source always has at least two entries (`1+N`, `N ≥ 1`);
the `[]` case is unreachable there and mapped to `none`. -/
def obtain (mem : Nat → Nat) : Nat → List Nat → Option Nat
  | _, [] => none
  | cursor, [o] => some ((cursor + o) % ptrMod)
  | cursor, o :: o2 :: rest =>
    let that := mem ((cursor + o) % ptrMod)
    if that = 0 then none else obtain mem that (o2 :: rest)

/-- One hop of the resolver algorithm as the specification words it:
dereference at `cursor + offset`, a null value making the whole chain absent. -/
def hop (mem : Nat → Nat) (acc : Option Nat) (o : Nat) : Option Nat :=
  acc.bind fun cursor =>
    let v := mem ((cursor + o) % ptrMod)
    if v = 0 then none else some v

/-- The resolver as specified: fold the dereferencing hop over all offsets but
the last, then add the last offset to the final cursor without dereferencing.
This definition follows the specification text for `resolve`, to be compared
with `obtain`, the definition taken from the source. -/
def resolve_spec (mem : Nat → Nat) (base : Nat) (offsets : List Nat) : Option Nat :=
  match offsets.getLast? with
  | none => none
  | some oN =>
    (offsets.dropLast.foldl (hop mem) (some base)).map fun cursor => (cursor + oN) % ptrMod

/-! ## The substitution primitive (`replace_all`, lines 124-133) -/

/-- Least index of an occurrence of `s` in `data` (an occurrence at `i` means
`s` is a prefix of `data` with its first `i` characters dropped; the empty
pattern occurs at `0`).  Helper for the model of `std::string::find`. -/
def findAt (s : List Char) : List Char → Option Nat
  | [] => if s.isEmpty then some 0 else none
  | c :: rest =>
    if s.isPrefixOf (c :: rest) then some 0
    else (findAt s rest).map (· + 1)

/-- Embeds `std::string::find (s, start)`: least index `i ≥ start` at which `s`
occurs in `data`, `none` standing for `npos`.  A start position past the end of
the string yields `npos`. -/
def findFrom (data s : List Char) (start : Nat) : Option Nat :=
  if start ≤ data.length then (findAt s (data.drop start)).map (· + start) else none

/-- Embeds the `while` loop of `replace_all` (lines 127-132), with explicit
fuel since the C++ loop need not terminate (it does not when `s` is empty):
state is the current string and the current `find` result (`none` = `npos`);
each iteration splices `r` over the occurrence at `n` and searches again from
`n + r.length`.  `none` as a result means the fuel ran out before the loop
exited. -/
def replace_loop (s r : List Char) : Nat → List Char → Option Nat → Option (List Char)
  | _, data, none => some data
  | 0, _, some _ => none
  | fuel + 1, data, some n =>
    let dataNext := data.take n ++ r ++ data.drop (n + s.length)
    replace_loop s r fuel dataNext (findFrom dataNext s (n + r.length))

/-- `replace_all` run with explicit fuel: the initial `find` followed by the loop. -/
def replace_all_fuel (fuel : Nat) (data s r : List Char) : Option (List Char) :=
  replace_loop s r fuel data (findFrom data s 0)

/-- Total version of `replace_all` used by the formatters.  Fuel
`data.length + 1` is proved sufficient below for every nonempty pattern, which
covers every call site of the source (all patterns are `"%…"` literals). -/
def replace_all (data s r : List Char) : List Char :=
  (replace_all_fuel (data.length + 1) data s r).getD data

/-! ## Calendar arithmetic of `game_time` (lines 200-274) -/

/-- Smallest value of the source's 32-bit `int`, i.e. -2³¹. -/
def int32Min : Int := -2147483648

/-- Largest value of the source's 32-bit `int`, i.e. 2³¹ - 1. -/
def int32Max : Int := 2147483647

/-- Two's-complement reduction of an integer into the 32-bit `int` range
(reduce modulo 2³² into [-2³¹, 2³¹)).  Signed overflow is undefined behaviour
per the C standard; this is the wrap-around the x64 target executes. -/
def wrap32 (t : Int) : Int := (t + 2147483648) % 4294967296 - 2147483648

/-- C cast of a `float` value to `int`: truncation toward zero (the floor for
a nonnegative value, the negated floor of the negation otherwise) while the
truncated value fits a 32-bit `int`.  Out of that range the conversion is
undefined behaviour per the C standard; the x64 target (`cvttss2si`) produces
the integer indefinite value `INT_MIN`, which is what this models. -/
def c_trunc (q : ℚ) : Int :=
  let t := if q < 0 then -Int.floor (-q) else Int.floor q
  if t < int32Min ∨ int32Max < t then int32Min else t

/-- Models `std::floor`. -/
def q_floor (q : ℚ) : Int := Int.floor q

/-- The cumulative-day month table of line 221. -/
def monthsTable : List Int := [31, 59, 90, 120, 151, 181, 212, 243, 273, 304, 334, 365]

/-- Embeds `std::lower_bound` over a sorted range as the index of the first
element not less than `v`, i.e. the length of the leading run of elements
below `v`. -/
def lower_bound_count (v : Int) : List Int → Nat
  | [] => 0
  | x :: rest => if x < v then lower_bound_count v rest + 1 else 0

/-- The broken-down calendar value `game_time` computes (lines 207-224). -/
structure Calendar where
  h : Int
  m : Int
  s : Int
  d : Int
  y : Int
  yd : Int
  wd : Int
  mo : Nat
  md : Int
deriving Repr, DecidableEq

/-- Embeds the arithmetic of `game_time` (lines 207-224) on the raw value `r`:
fractional part split into hour/minute/second, day index `d` with the +228
epoch alignment, year, day of year, weekday, and the lower-bound month
search.  C `/` and `%` on `int` truncate toward zero, hence `tdiv`/`tmod`.
The source's `int` is 32 bits: the float casts clamp out-of-range values to
`INT_MIN` (see `c_trunc`), and the two additions whose result can leave the
32-bit range — `int (*source) + 228` and `d + 3` — wrap (`wrap32`).  The
remaining operations cannot overflow for any input: `tmod _ 365` lies in
(-365, 365), `tdiv d 365 + 201` and the month arithmetic stay far inside the
range. -/
def game_time_calendar (r : ℚ) : Calendar :=
  let hms0 := r - (c_trunc r : ℚ)
  let hmsA := hms0 * 24
  let h := c_trunc hmsA
  let hmsB := hmsA - (c_trunc hmsA : ℚ)
  let hmsC := hmsB * 60
  let m := c_trunc hmsC
  let hmsD := hmsC - (c_trunc hmsC : ℚ)
  let s := c_trunc (hmsD * 60)
  let d := wrap32 (c_trunc r + 228)
  let y := Int.tdiv d 365 + 201
  let yd := Int.tmod d 365 + 1
  let wd := Int.tmod (wrap32 (d + 3)) 7
  let mo := lower_bound_count yd monthsTable
  let md := if mo = 0 then yd else yd - monthsTable.getD (mo - 1) 0
  ⟨h, m, s, d, y, yd, wd, mo, md⟩

/-- Long month names (lines 233-236). -/
def longmon : List String :=
  ["Morning Star", "Sun's Dawn", "First Seed", "Rain's Hand", "Second Seed", "Midyear",
   "Sun's Height", "Last Seed", "Hearthfire", "Frostfall", "Sun's Dusk", "Evening Star"]

/-- Birth-sign month names (lines 237-240). -/
def birtmon : List String :=
  ["The Ritual", "The Lover", "The Lord", "The Mage", "The Shadow", "The Steed",
   "The Apprentice", "The Warrior", "The Lady", "The Tower", "The Atronach", "The Thief"]

/-- Argonian month names (lines 241-246). -/
def argomon : List String :=
  ["Vakka (Sun)", "Xeech (Nut)", "Sisei (Sprout)", "Hist-Deek (Hist Sapling)",
   "Hist-Dooka (Mature Hist)", "Hist-Tsoko (Elder Hist)", "Thtithil-Gah (Egg-Basket)",
   "Thtithil (Egg)", "Nushmeeko (Lizard)", "Shaja-Nushmeeko (Semi-Humanoid Lizard)",
   "Saxhleel (Argonian)", "Xulomaht (The Deceased)"]

/-- Long weekday names (lines 254-256). -/
def longwday : List String :=
  ["Sundas", "Morndas", "Tirdas", "Middas", "Turdas", "Fredas", "Loredas"]

/-- Short weekday names (lines 257-259). -/
def shrtwday : List String :=
  ["Sun", "Mor", "Tir", "Mid", "Tur", "Fre", "Lor"]

/-- `std::to_string` on an `int`. -/
def int_chars (i : Int) : List Char := (toString i).toList

/-- `std::to_string` on an `int` coming from a `Nat` of the model. -/
def nat_chars (n : Nat) : List Char := (toString n).toList

/-- Characters of a name-table entry. -/
def str_chars (s : String) : List Char := s.toList

/-- Models `std::to_string` on a `float` (i.e. `sprintf "%f"`): sign, integer
part, and six decimals of the value rounded to the nearest multiple of
10⁻⁶ (half away from zero; the exact tie behaviour of the C library is
invisible to every claim proved here). -/
def float_chars (q : ℚ) : List Char :=
  let n := q_floor (abs q * 1000000 + 1/2)
  let ip := Int.tdiv n 1000000
  let fp := (Int.tmod n 1000000).toNat
  let fps := toString fp
  let sign : List Char := if q < 0 then ['-'] else []
  sign ++ int_chars ip ++ ['.'] ++ List.replicate (6 - fps.length) '0' ++ fps.toList

/-- Models `snprintf "%.0f"` on a coordinate: the value rounded to the nearest
integer, ties to even, printed with no decimals (the rounded value's sign; the
C library's "-0" for small negatives is invisible to every claim proved
here). -/
def round_even (q : ℚ) : Int :=
  let fl := q_floor q
  let frac := q - (fl : ℚ)
  if frac < 1/2 then fl
  else if 1/2 < frac then fl + 1
  else if fl % 2 = 0 then fl else fl + 1

/-- Coordinate text of `player_location` (lines 146-151). -/
def coord_chars (q : ℚ) : List Char := int_chars (round_even q)

/-- The sentinel string returned when a value is unavailable. -/
def naChars : List Char := "(n/a)".toList

/-- A 32-bit float as the source observes it: its (rational) value and the
classification bits `std::isnormal` and `std::isfinite` consult. -/
structure GFloat where
  val : ℚ
  normal : Bool
  finite : Bool

/-- The substitution chain of `game_time` (lines 226-273), in source order:
%y, %Y, %lm, %bm, %am, %mo, %md, %sd, %ld, %wd, %h, %m, %s, %ri, %r.
The source indexes the month and weekday `std::array`s with no bounds check;
`List.getD` with a default renders only the in-bounds path faithfully.  A
negative weekday index — reachable through a guard-passing value that
overflows the float-to-int cast, see `game_time_calendar` — is an
out-of-bounds access (undefined behaviour) in the source, so theorems that
assert the substituted output carry a range hypothesis keeping the indices
in bounds. -/
def game_time_format (r : ℚ) (format : List Char) : List Char :=
  let c := game_time_calendar r
  let sy := int_chars c.y
  let sY := "4E".toList ++ sy
  let f1 := replace_all format ("%y".toList) sy
  let f2 := replace_all f1 ("%Y".toList) sY
  let f3 := replace_all f2 ("%lm".toList) (str_chars (longmon.getD c.mo ""))
  let f4 := replace_all f3 ("%bm".toList) (str_chars (birtmon.getD c.mo ""))
  let f5 := replace_all f4 ("%am".toList) (str_chars (argomon.getD c.mo ""))
  let f6 := replace_all f5 ("%mo".toList) (nat_chars (c.mo + 1))
  let f7 := replace_all f6 ("%md".toList) (int_chars c.md)
  let f8 := replace_all f7 ("%sd".toList) (str_chars (shrtwday.getD c.wd.toNat ""))
  let f9 := replace_all f8 ("%ld".toList) (str_chars (longwday.getD c.wd.toNat ""))
  let f10 := replace_all f9 ("%wd".toList) (int_chars (c.wd + 1))
  let f11 := replace_all f10 ("%h".toList) (int_chars c.h)
  let f12 := replace_all f11 ("%m".toList) (int_chars c.m)
  let f13 := replace_all f12 ("%s".toList) (int_chars c.s)
  let f14 := replace_all f13 ("%ri".toList) (int_chars c.d)
  replace_all f14 ("%r".toList) (float_chars r)

/-- Embeds `game_time` (lines 200-274): `source` is the result of reading the
float the `game_epoch` chain points at (`none` = the chain did not resolve).
A missing source, a non-normal value, or a negative value short-circuits to
the sentinel (line 204); otherwise the calendar escapes are substituted. -/
def game_time (source : Option GFloat) (format : List Char) : List Char :=
  match source with
  | none => naChars
  | some f =>
    if f.normal = false ∨ f.val < 0 then naChars
    else game_time_format f.val format

/-- Embeds `player_location` (lines 139-169): `pos` is the float triple the
`player_pos` chain points at (`none` = unresolved chain), `world` and `cell`
the C strings resolved by `worldspace_name` and `player_cell` (`none` = the
chain or terminal pointer was null).  A missing position or a non-finite
coordinate short-circuits to the sentinel (line 143); a missing name is
substituted by empty text (lines 160-166). -/
def player_location (pos : Option (GFloat × GFloat × GFloat))
    (world cell : Option (List Char)) (format : List Char) : List Char :=
  match pos with
  | none => naChars
  | some (px, py, pz) =>
    if px.finite = false ∨ py.finite = false ∨ pz.finite = false then naChars
    else
      let f1 := replace_all format ("%x".toList) (coord_chars px.val)
      let f2 := replace_all f1 ("%y".toList) (coord_chars py.val)
      let f3 := replace_all f2 ("%z".toList) (coord_chars pz.val)
      let f4 := replace_all f3 ("%cx".toList) (int_chars (q_floor (px.val / 4096)))
      let f5 := replace_all f4 ("%cy".toList) (int_chars (q_floor (py.val / 4096)))
      let f6 :=
        match world with
        | some nm => replace_all f5 ("%wn".toList) nm
        | none => replace_all f5 ("%wn".toList) []
      match cell with
      | some nm => replace_all f6 ("%cn".toList) nm
      | none => replace_all f6 ("%cn".toList) []

/-- A catalog entry of `make_variables` (lines 288-362), keeping the fields
the claims observe (the render closures are the formatters above). -/
structure VariableEntry where
  fuid : Nat
  deletable : Bool
  name : String
  params : String
deriving Repr, DecidableEq

/-- Embeds the catalog assembly of `make_variables` (lines 308-361), after the
offset-discovery calls: the game-time variable (fuid 1) is added only when the
`game_epoch` chain's root offset is nonzero (line 308), the player-position
variable (fuid 3) only when the `player_pos` chain's root offset is nonzero
(line 334), and the local-time variable (fuid 2) always. -/
def make_variables (gameTimeRoot playerPosRoot : Nat) : List VariableEntry :=
  (if gameTimeRoot ≠ 0 then
    [{ fuid := 1, deletable := false, name := "Game time (fixed)",
       params := "%h:%m %ld, day %md of %lm, %Y" }]
   else []) ++
  (if playerPosRoot ≠ 0 then
    [{ fuid := 3, deletable := false, name := "Player position (fixed)",
       params := "%wn, %cn: %x %y %z" }]
   else []) ++
  [{ fuid := 2, deletable := false, name := "Local time (fixed)", params := "%X %x" }]

/-- The escape tokens `game_time` substitutes, in source order (lines 229-271). -/
def game_time_tokens : List (List Char) :=
  ["%y".toList, "%Y".toList, "%lm".toList, "%bm".toList, "%am".toList, "%mo".toList,
   "%md".toList, "%sd".toList, "%ld".toList, "%wd".toList, "%h".toList, "%m".toList,
   "%s".toList, "%ri".toList, "%r".toList]

/-- The escape tokens `player_location` substitutes, in source order (lines 153-166). -/
def location_tokens : List (List Char) :=
  ["%x".toList, "%y".toList, "%z".toList, "%cx".toList, "%cy".toList,
   "%wn".toList, "%cn".toList]

/-- No token of `toks` occurs anywhere in `fmt` (positions beyond the end of
`fmt` cannot carry an occurrence of a nonempty token, so the bounded
quantifier loses nothing and keeps the predicate decidable). -/
@[reducible]
def no_token (toks : List (List Char)) (fmt : List Char) : Prop :=
  ∀ t ∈ toks, ∀ m, m < fmt.length + 1 → ¬ t.isPrefixOf (fmt.drop m)

/-! ## Lemmas about the resolver -/

theorem foldl_hop_none (mem : Nat → Nat) (l : List Nat) :
    l.foldl (hop mem) none = none := by
  induction l with
  | nil => rfl
  | cons o rest ih => simpa [hop] using ih

theorem resolve_spec_single (mem : Nat → Nat) (base o : Nat) :
    resolve_spec mem base [o] = some ((base + o) % ptrMod) := by
  simp [resolve_spec]

theorem resolve_spec_cons_cons (mem : Nat → Nat) (base o o2 : Nat) (rest : List Nat) :
    resolve_spec mem base (o :: o2 :: rest)
      = if mem ((base + o) % ptrMod) = 0 then none
        else resolve_spec mem (mem ((base + o) % ptrMod)) (o2 :: rest) := by
  by_cases h : mem ((base + o) % ptrMod) = 0
  · cases hL : (o2 :: rest).getLast? with
    | none => simp [resolve_spec, List.getLast?_cons_cons, hL, if_pos h]
    | some oN =>
      simp [resolve_spec, List.getLast?_cons_cons, hL, List.dropLast_cons₂, hop, h,
        foldl_hop_none]
  · cases hL : (o2 :: rest).getLast? with
    | none => simp [resolve_spec, List.getLast?_cons_cons, hL, if_neg h]
    | some oN =>
      simp [resolve_spec, List.getLast?_cons_cons, hL, List.dropLast_cons₂, hop, h]

theorem obtain_eq_resolve_spec (mem : Nat → Nat) (base : Nat) (offsets : List Nat) :
    obtain mem base offsets = resolve_spec mem base offsets := by
  induction offsets generalizing base with
  | nil => rfl
  | cons o rest ih =>
    cases rest with
    | nil => simp [obtain, resolve_spec_single]
    | cons o2 rest2 =>
      rw [resolve_spec_cons_cons]
      by_cases h : mem ((base + o) % ptrMod) = 0
      · simp [obtain, h]
      · simp [obtain, h, ih]

/-- C1: for every wired address chain and memory state, the resolver starts at
the base address, replaces the cursor at each hop by the pointer-sized value
read at cursor + offset, returns absent immediately when that value is zero
(for any continuation of the chain), and otherwise adds the final offset to
the cursor without a further dereference.  Stated as: `obtain` (source) agrees
everywhere with `resolve_spec` (the specification's fold-with-early-exit
algorithm), together with the step equations of the loop. -/
theorem claim_C1_resolver :
    (∀ (mem : Nat → Nat) (base : Nat) (offsets : List Nat),
        obtain mem base offsets = resolve_spec mem base offsets)
    ∧ (∀ (mem : Nat → Nat) (base o : Nat),
        obtain mem base [o] = some ((base + o) % ptrMod))
    ∧ (∀ (mem : Nat → Nat) (base o o2 : Nat) (rest : List Nat),
        mem ((base + o) % ptrMod) = 0 → obtain mem base (o :: o2 :: rest) = none)
    ∧ (∀ (mem : Nat → Nat) (base o o2 : Nat) (rest : List Nat),
        mem ((base + o) % ptrMod) ≠ 0 →
          obtain mem base (o :: o2 :: rest)
            = obtain mem (mem ((base + o) % ptrMod)) (o2 :: rest)) := by
  refine ⟨obtain_eq_resolve_spec, fun mem base o => rfl, ?_, ?_⟩
  · intro mem base o o2 rest h
    simp [obtain, h]
  · intro mem base o o2 rest h
    simp [obtain, h]

/-- Witness for C1: the step equations evaluated on a concrete chain and
memory: a zero read aborts, a nonzero read continues with the read value. -/
theorem claim_C1_resolver_witness :
    obtain (fun _ => 0) 4 [1, 2, 3] = none
    ∧ obtain (fun _ => 9) 4 [1, 2] = obtain (fun _ => 9) 9 [2] :=
  ⟨claim_C1_resolver.2.2.1 (fun _ => 0) 4 1 2 [3] rfl,
   claim_C1_resolver.2.2.2 (fun _ => 9) 4 1 2 [] (by decide)⟩

/-- C7 counterexample: `obtain` performs no root-offset check, so a chain
whose root offset is 0 does not resolve to absent: with memory holding 5 at
every address, base 0 and chain [0, 7], it reads at 0 + 0, obtains 5, and
returns the leaf address 5 + 7 = 12. -/
theorem claim_C7_counterexample :
    obtain (fun _ => 5) 0 [0, 7] = some 12 := by decide

/-- C7 as amended: the not-wired short-circuit for a zero root offset is not
in the resolver but in the catalog builder: a chain whose root offset is 0
has no variable registered for it at all (so it is never resolved), while
`obtain` itself treats a zero root offset like any other offset, reading
memory at base + 0. -/
theorem claim_C7_amended :
    (∀ playerPosRoot : Nat,
        (make_variables 0 playerPosRoot).filter (fun e => e.fuid == 1) = [])
    ∧ (∀ gameTimeRoot : Nat,
        (make_variables gameTimeRoot 0).filter (fun e => e.fuid == 3) = [])
    ∧ (∀ (mem : Nat → Nat) (base o2 : Nat) (rest : List Nat),
        obtain mem base (0 :: o2 :: rest)
          = if mem ((base + 0) % ptrMod) = 0 then none
            else obtain mem (mem ((base + 0) % ptrMod)) (o2 :: rest)) := by
  refine ⟨?_, ?_, ?_⟩
  · intro p
    by_cases hp : p ≠ 0 <;> simp [make_variables, hp]
  · intro g
    by_cases hg : g ≠ 0 <;> simp [make_variables, hg]
  · intro mem base o2 rest
    rfl

/-! ## Lemmas about `findAt` and `findFrom` -/

theorem findAt_some_le (s : List Char) :
    ∀ (l : List Char) (i : Nat), findAt s l = some i → i ≤ l.length := by
  intro l
  induction l with
  | nil =>
    intro i h
    by_cases hs : s.isEmpty <;> simp [findAt, hs] at h
    omega
  | cons c rest ih =>
    intro i h
    by_cases hp : s.isPrefixOf (c :: rest)
    · simp [findAt, hp] at h
      omega
    · simp [findAt, hp] at h
      rcases h with ⟨j, hj, hji⟩
      have := ih j hj
      simp
      omega

theorem findAt_some_occurrence (s : List Char) :
    ∀ (l : List Char) (i : Nat), findAt s l = some i → s.isPrefixOf (l.drop i) := by
  intro l
  induction l with
  | nil =>
    intro i h
    by_cases hs : s.isEmpty <;> simp [findAt, hs] at h
    subst h
    simp_all [List.isEmpty_iff, List.isPrefixOf]
  | cons c rest ih =>
    intro i h
    by_cases hp : s.isPrefixOf (c :: rest)
    · simp [findAt, hp] at h
      subst h
      simpa using hp
    · simp [findAt, hp] at h
      rcases h with ⟨j, hj, hji⟩
      subst hji
      simpa using ih j hj

theorem findAt_min (s : List Char) :
    ∀ (l : List Char) (i : Nat), findAt s l = some i →
      ∀ m, m < i → ¬ s.isPrefixOf (l.drop m) := by
  intro l
  induction l with
  | nil =>
    intro i h m hm
    by_cases hs : s.isEmpty <;> simp [findAt, hs] at h
    omega
  | cons c rest ih =>
    intro i h m hm
    by_cases hp : s.isPrefixOf (c :: rest)
    · simp [findAt, hp] at h
      omega
    · simp [findAt, hp] at h
      rcases h with ⟨j, hj, hji⟩
      cases m with
      | zero => simpa using hp
      | succ m =>
        have : m < j := by omega
        simpa using ih j hj m this

theorem findAt_none (s : List Char) :
    ∀ (l : List Char), findAt s l = none → ∀ m, ¬ s.isPrefixOf (l.drop m) := by
  intro l
  induction l with
  | nil =>
    intro h m
    by_cases hs : s.isEmpty <;> simp [findAt, hs] at h ⊢
    cases s with
    | nil => simp_all
    | cons a as => simp [List.isPrefixOf]
  | cons c rest ih =>
    intro h m
    by_cases hp : s.isPrefixOf (c :: rest)
    · simp [findAt, hp] at h
    · simp [findAt, hp] at h
      cases m with
      | zero => simpa using hp
      | succ m => simpa using ih h m

theorem findFrom_some_ge {data s : List Char} {st i : Nat}
    (h : findFrom data s st = some i) : st ≤ i := by
  by_cases hle : st ≤ data.length <;> simp [findFrom, hle] at h
  rcases h with ⟨j, _, hji⟩
  omega

theorem findFrom_some_occurrence {data s : List Char} {st i : Nat}
    (h : findFrom data s st = some i) : s.isPrefixOf (data.drop i) := by
  by_cases hle : st ≤ data.length <;> simp [findFrom, hle] at h
  rcases h with ⟨j, hj, hji⟩
  have := findAt_some_occurrence s (data.drop st) j hj
  rw [List.drop_drop] at this
  rwa [show st + j = i by omega] at this

theorem findFrom_some_le {data s : List Char} {st i : Nat}
    (h : findFrom data s st = some i) : i + s.length ≤ data.length := by
  have hp := findFrom_some_occurrence h
  have hlen : s.length ≤ (data.drop i).length :=
    List.IsPrefix.length_le ( List.isPrefixOf_iff_prefix.mp hp)
  have hi : i ≤ data.length := by
    by_cases hle : st ≤ data.length <;> simp [findFrom, hle] at h
    rcases h with ⟨j, hj, hji⟩
    have := findAt_some_le s (data.drop st) j hj
    simp [List.length_drop] at this
    omega
  simp [List.length_drop] at hlen
  omega

theorem findFrom_none {data s : List Char}
    (h : findFrom data s 0 = none) : ∀ m, ¬ s.isPrefixOf (data.drop m) := by
  simp [findFrom] at h
  intro m
  exact findAt_none s data h m

theorem findFrom_zero_min {data s : List Char} {i : Nat}
    (h : findFrom data s 0 = some i) : ∀ m, m < i → ¬ s.isPrefixOf (data.drop m) := by
  simp [findFrom] at h
  exact findAt_min s data i h

theorem findFrom_zero_first (data s : List Char) (n : Nat)
    (hocc : s.isPrefixOf (data.drop n))
    (hmin : ∀ m, m < n → ¬ s.isPrefixOf (data.drop m)) :
    findFrom data s 0 = some n := by
  cases hf : findFrom data s 0 with
  | none => exact absurd hocc (findFrom_none hf n)
  | some i =>
    rcases lt_trichotomy i n with h | h | h
    · exact absurd (findFrom_some_occurrence hf) (hmin i h)
    · rw [h]
    · exact absurd hocc (findFrom_zero_min hf n h)

theorem findFrom_shift (A B s : List Char) (k : Nat) :
    findFrom (A ++ B) s (A.length + k) = (findFrom B s k).map (· + A.length) := by
  by_cases hk : k ≤ B.length
  · have hle : A.length + k ≤ (A ++ B).length := by simp; omega
    have hdrop : (A ++ B).drop (A.length + k) = B.drop k := by
      rw [List.drop_append_eq_append_drop, List.drop_eq_nil_of_le (by omega)]
      simp
    rw [findFrom, if_pos hle, hdrop, findFrom, if_pos hk]
    cases findAt s (B.drop k) with
    | none => rfl
    | some j => simp; omega
  · have hle : ¬ A.length + k ≤ (A ++ B).length := by simp; omega
    rw [findFrom, if_neg hle, findFrom, if_neg hk]
    rfl

/-! ## Lemmas about the substitution loop -/

theorem replace_loop_none (s r : List Char) (fuel : Nat) (data : List Char) :
    replace_loop s r fuel data none = some data := by
  cases fuel <;> rfl

theorem replace_loop_zero_some (s r : List Char) (data : List Char) (n : Nat) :
    replace_loop s r 0 data (some n) = none := rfl

theorem replace_loop_succ_some (s r : List Char) (fuel : Nat) (data : List Char) (n : Nat) :
    replace_loop s r (fuel + 1) data (some n)
      = replace_loop s r fuel (data.take n ++ r ++ data.drop (n + s.length))
          (findFrom (data.take n ++ r ++ data.drop (n + s.length)) s (n + r.length)) := rfl

theorem replace_loop_mono (s r : List Char) :
    ∀ (f1 f2 : Nat) (data : List Char) (st : Option Nat) (out : List Char),
      replace_loop s r f1 data st = some out → f1 ≤ f2 →
      replace_loop s r f2 data st = some out := by
  intro f1
  induction f1 with
  | zero =>
    intro f2 data st out h hle
    cases st with
    | none => rw [replace_loop_none] at h ⊢; exact h
    | some n => rw [replace_loop_zero_some] at h; cases h
  | succ f1 ih =>
    intro f2 data st out h hle
    cases st with
    | none => rw [replace_loop_none] at h ⊢; exact h
    | some n =>
      cases f2 with
      | zero => omega
      | succ f2 =>
        rw [replace_loop_succ_some] at h ⊢
        exact ih f2 _ _ out h (by omega)

theorem replace_loop_isSome (s r : List Char) (hs : s ≠ []) :
    ∀ (fuel : Nat) (data : List Char) (i : Nat),
      i + s.length ≤ data.length → data.length - i < fuel →
      (replace_loop s r fuel data (some i)).isSome := by
  intro fuel
  induction fuel with
  | zero => intro data i h1 h2; omega
  | succ fuel ih =>
    intro data i h1 h2
    rw [replace_loop_succ_some]
    have hlen : (data.take i ++ r ++ data.drop (i + s.length)).length
        = i + r.length + (data.length - (i + s.length)) := by
      simp [List.length_take, List.length_drop]
      omega
    cases hf : findFrom (data.take i ++ r ++ data.drop (i + s.length)) s (i + r.length) with
    | none => rw [replace_loop_none]; rfl
    | some i2 =>
      have hge := findFrom_some_ge hf
      have hle := findFrom_some_le hf
      have hs1 : 1 ≤ s.length := by
        cases s with
        | nil => exact absurd rfl hs
        | cons a as => simp
      exact ih _ i2 hle (by omega)

theorem replace_all_fuel_isSome (data s r : List Char) (hs : s ≠ []) :
    (replace_all_fuel (data.length + 1) data s r).isSome := by
  rw [replace_all_fuel]
  cases hf : findFrom data s 0 with
  | none => rw [replace_loop_none]; rfl
  | some i =>
    have hle := findFrom_some_le hf
    exact replace_loop_isSome s r hs _ data i hle (by omega)

theorem replace_all_fuel_eq_some (data s r : List Char) (hs : s ≠ []) :
    replace_all_fuel (data.length + 1) data s r = some (replace_all data s r) := by
  rcases Option.isSome_iff_exists.mp (replace_all_fuel_isSome data s r hs) with ⟨v, hv⟩
  simp [replace_all, hv]

theorem replace_loop_shift (s r : List Char) :
    ∀ (fuel : Nat) (A B : List Char) (k : Nat),
      replace_loop s r fuel (A ++ B) ((findFrom B s k).map (· + A.length))
        = (replace_loop s r fuel B (findFrom B s k)).map (A ++ ·) := by
  intro fuel
  induction fuel with
  | zero =>
    intro A B k
    cases hf : findFrom B s k with
    | none => simp [replace_loop_none]
    | some i => simp [replace_loop_zero_some]
  | succ fuel ih =>
    intro A B k
    cases hf : findFrom B s k with
    | none => simp [replace_loop_none]
    | some i =>
      have hle := findFrom_some_le hf
      simp only [Option.map_some']
      rw [replace_loop_succ_some, replace_loop_succ_some]
      have hT : (A ++ B).take (i + A.length) = A ++ B.take i := by
        rw [List.take_append_eq_append_take, List.take_of_length_le (by omega)]
        congr 2
        omega
      have hD : (A ++ B).drop (i + A.length + s.length) = B.drop (i + s.length) := by
        rw [List.drop_append_eq_append_drop, List.drop_eq_nil_of_le (by omega)]
        simp only [List.nil_append]
        congr 1
        omega
      rw [hT, hD]
      have hassoc : (A ++ B.take i) ++ r ++ B.drop (i + s.length)
          = A ++ (B.take i ++ r ++ B.drop (i + s.length)) := by
        simp [List.append_assoc]
      rw [hassoc]
      have hidx : i + A.length + r.length = A.length + (i + r.length) := by omega
      rw [hidx, findFrom_shift A (B.take i ++ r ++ B.drop (i + s.length)) s (i + r.length)]
      exact ih A (B.take i ++ r ++ B.drop (i + s.length)) (i + r.length)

theorem replace_all_first_occ (data s r : List Char) (n : Nat) (hs : s ≠ [])
    (hf : findFrom data s 0 = some n) :
    replace_all data s r
      = data.take n ++ r ++ replace_all (data.drop (n + s.length)) s r := by
  have hle := findFrom_some_le hf
  have hs1 : 1 ≤ s.length := by
    cases s with
    | nil => exact absurd rfl hs
    | cons a as => simp
  have hA : (data.take n ++ r).length = n + r.length := by
    simp [List.length_take]
    omega
  have htail : (data.drop (n + s.length)).length = data.length - (n + s.length) :=
    List.length_drop _ _
  have hstep : replace_all_fuel (data.length + 1) data s r
      = replace_loop s r data.length (data.take n ++ r ++ data.drop (n + s.length))
          (findFrom (data.take n ++ r ++ data.drop (n + s.length)) s (n + r.length)) := by
    rw [replace_all_fuel, hf, replace_loop_succ_some]
  have hassoc : data.take n ++ r ++ data.drop (n + s.length)
      = (data.take n ++ r) ++ data.drop (n + s.length) := by
    simp [List.append_assoc]
  have hidx : n + r.length = (data.take n ++ r).length + 0 := by omega
  have hshift : replace_loop s r data.length
        (data.take n ++ r ++ data.drop (n + s.length))
        (findFrom (data.take n ++ r ++ data.drop (n + s.length)) s (n + r.length))
      = (replace_all_fuel data.length (data.drop (n + s.length)) s r).map
          ((data.take n ++ r) ++ ·) := by
    rw [hassoc, hidx,
      findFrom_shift (data.take n ++ r) (data.drop (n + s.length)) s 0,
      replace_loop_shift, replace_all_fuel]
  have htfuel : replace_all_fuel data.length (data.drop (n + s.length)) s r
      = some (replace_all (data.drop (n + s.length)) s r) := by
    have h1 := replace_all_fuel_eq_some (data.drop (n + s.length)) s r hs
    rw [replace_all_fuel] at h1 ⊢
    exact replace_loop_mono s r _ _ _ _ _ h1 (by omega)
  have hmain := replace_all_fuel_eq_some data s r hs
  rw [hstep, hshift, htfuel] at hmain
  simp only [Option.map_some', Option.some.injEq] at hmain
  rw [← hmain]

theorem replace_all_no_occ (data s r : List Char)
    (h : ∀ m, m < data.length + 1 → ¬ s.isPrefixOf (data.drop m)) :
    replace_all data s r = data := by
  have hf : findFrom data s 0 = none := by
    cases hf : findFrom data s 0 with
    | none => rfl
    | some i =>
      have hp := findFrom_some_occurrence hf
      have hle := findFrom_some_le hf
      exact absurd hp (h i (by omega))
  rw [replace_all, replace_all_fuel, hf, replace_loop_none]
  rfl

theorem replace_loop_empty_tok (r : List Char) :
    ∀ (fuel : Nat) (data : List Char) (n : Nat), n ≤ data.length →
      replace_loop [] r fuel data (some n) = none := by
  intro fuel
  induction fuel with
  | zero => intro data n h; rfl
  | succ fuel ih =>
    intro data n h
    rw [replace_loop_succ_some]
    simp only [List.length_nil, Nat.add_zero]
    have hnext : findFrom (data.take n ++ r ++ data.drop n) [] (n + r.length)
        = some (n + r.length) := by
      have hlen : n + r.length ≤ (data.take n ++ r ++ data.drop n).length := by
        simp [List.length_take, List.length_drop]
        omega
      rw [findFrom, if_pos hlen]
      have hfa : findAt [] ((data.take n ++ r ++ data.drop n).drop (n + r.length))
          = some 0 := by
        cases hc : (data.take n ++ r ++ data.drop n).drop (n + r.length) with
        | nil => rfl
        | cons a as => simp [findAt, List.isPrefixOf]
      rw [hfa]
      simp
    rw [hnext]
    apply ih
    simp [List.length_take, List.length_drop]
    omega

/-! ## Claims about the substitution primitive -/

/-- C5: the substitution primitive replaces occurrences of the token left to
right, resuming the scan immediately after the end of each inserted
replacement: at the first occurrence position `n` the result is the prefix
before `n`, then the replacement, then the recursively substituted remainder
after the occurrence — so an inserted replacement is never re-expanded, even
when it contains the token; in particular substituting "%x%x" for "%x" in
"%x" yields exactly "%x%x". -/
theorem claim_C5_substitution :
    (∀ (s r data : List Char) (n : Nat), s ≠ [] →
        s.isPrefixOf (data.drop n) →
        (∀ m, m < n → ¬ s.isPrefixOf (data.drop m)) →
        replace_all data s r
          = data.take n ++ r ++ replace_all (data.drop (n + s.length)) s r)
    ∧ replace_all ("%x".toList) ("%x".toList) ("%x%x".toList) = "%x%x".toList := by
  constructor
  · intro s r data n hs hocc hmin
    exact replace_all_first_occ data s r n hs (findFrom_zero_first data s n hocc hmin)
  · decide

/-- Witness for C5: the left-to-right step evaluated on "abcabc", replacing
"bc" at its first occurrence (index 1). -/
theorem claim_C5_substitution_witness :
    replace_all ("abcabc".toList) ("bc".toList) ("X".toList)
      = "abcabc".toList.take 1 ++ "X".toList
        ++ replace_all ("abcabc".toList.drop (1 + "bc".toList.length))
            ("bc".toList) ("X".toList) :=
  claim_C5_substitution.1 ("bc".toList) ("X".toList) ("abcabc".toList) 1
    (by decide) (by decide) (by decide)

/-- C10: for every input string, every nonempty token and every replacement
(including replacements containing the token) the substitution loop
terminates — fuel `length + 1` always suffices; and non-emptiness of the token
is necessary: with the empty token the loop never exits, whatever the fuel. -/
theorem claim_C10_termination :
    (∀ (data s r : List Char), s ≠ [] →
        (replace_all_fuel (data.length + 1) data s r).isSome)
    ∧ (∀ (fuel : Nat) (data r : List Char),
        replace_all_fuel fuel data [] r = none) := by
  constructor
  · intro data s r hs
    exact replace_all_fuel_isSome data s r hs
  · intro fuel data r
    rw [replace_all_fuel]
    have h0 : findFrom data [] 0 = some 0 := by
      rw [findFrom, if_pos (Nat.zero_le _)]
      have hfa : findAt [] (data.drop 0) = some 0 := by
        cases data with
        | nil => rfl
        | cons a as => simp [findAt, List.isPrefixOf]
      rw [hfa]
      rfl
    rw [h0]
    exact replace_loop_empty_tok r fuel data 0 (Nat.zero_le _)

/-- Witness for C10: the loop terminates on a concrete string whose
replacement contains the token. -/
theorem claim_C10_termination_witness :
    (replace_all_fuel ("aXa".toList.length + 1) ("aXa".toList)
      ("X".toList) ("XX".toList)).isSome :=
  claim_C10_termination.1 ("aXa".toList) ("X".toList) ("XX".toList) (by decide)

/-! ## Claims about the formatters' guard behaviour -/

/-- C4: the location formatter yields the sentinel "(n/a)" for every format
string when the position is unavailable or any coordinate is non-finite;
whereas an absent world name or cell name behaves exactly like an
empty-text name — only that escape is blanked, the coordinate escapes are
substituted normally. -/
theorem claim_C4_location_guard :
    (∀ world cell fmt, player_location none world cell fmt = naChars)
    ∧ (∀ (px py pz : GFloat) (world cell : Option (List Char)) (fmt : List Char),
        px.finite = false ∨ py.finite = false ∨ pz.finite = false →
        player_location (some (px, py, pz)) world cell fmt = naChars)
    ∧ (∀ (px py pz : GFloat) (cell : Option (List Char)) (fmt : List Char),
        player_location (some (px, py, pz)) none cell fmt
          = player_location (some (px, py, pz)) (some []) cell fmt)
    ∧ (∀ (px py pz : GFloat) (world : Option (List Char)) (fmt : List Char),
        player_location (some (px, py, pz)) world none fmt
          = player_location (some (px, py, pz)) world (some []) fmt) := by
  refine ⟨fun _ _ _ => rfl, ?_, ?_, ?_⟩
  · intro px py pz world cell fmt h
    simp only [player_location, if_pos h]
  · intro px py pz cell fmt
    rfl
  · intro px py pz world fmt
    cases world <;> rfl

/-- Witness for C4: one non-finite coordinate forces the sentinel. -/
theorem claim_C4_location_guard_witness :
    player_location (some (⟨0, true, false⟩, ⟨0, true, true⟩, ⟨0, true, true⟩)) none none
        ("%x".toList) = naChars :=
  claim_C4_location_guard.2.1 ⟨0, true, false⟩ ⟨0, true, true⟩ ⟨0, true, true⟩ none none
    ("%x".toList) (Or.inl rfl)

/-- C8: substitution leaves a string unchanged whenever the token does not
occur in it (in particular on the empty string); consequently, when their
guards pass, both the calendar formatter and the location formatter return a
format string containing none of their escape tokens unchanged. -/
theorem claim_C8_no_escape :
    (∀ (data s r : List Char),
        (∀ m, m < data.length + 1 → ¬ s.isPrefixOf (data.drop m)) →
        replace_all data s r = data)
    ∧ (∀ (f : GFloat) (fmt : List Char), f.normal = true → ¬ f.val < 0 →
        no_token game_time_tokens fmt → game_time (some f) fmt = fmt)
    ∧ (∀ (px py pz : GFloat) (world cell : Option (List Char)) (fmt : List Char),
        px.finite = true → py.finite = true → pz.finite = true →
        no_token location_tokens fmt →
        player_location (some (px, py, pz)) world cell fmt = fmt) := by
  refine ⟨replace_all_no_occ, ?_, ?_⟩
  · intro f fmt hn hv hno
    have hguard : ¬ (f.normal = false ∨ f.val < 0) := by simp [hn, hv]
    have h01 := hno _ (show "%y".toList ∈ game_time_tokens by decide)
    have h02 := hno _ (show "%Y".toList ∈ game_time_tokens by decide)
    have h03 := hno _ (show "%lm".toList ∈ game_time_tokens by decide)
    have h04 := hno _ (show "%bm".toList ∈ game_time_tokens by decide)
    have h05 := hno _ (show "%am".toList ∈ game_time_tokens by decide)
    have h06 := hno _ (show "%mo".toList ∈ game_time_tokens by decide)
    have h07 := hno _ (show "%md".toList ∈ game_time_tokens by decide)
    have h08 := hno _ (show "%sd".toList ∈ game_time_tokens by decide)
    have h09 := hno _ (show "%ld".toList ∈ game_time_tokens by decide)
    have h10 := hno _ (show "%wd".toList ∈ game_time_tokens by decide)
    have h11 := hno _ (show "%h".toList ∈ game_time_tokens by decide)
    have h12 := hno _ (show "%m".toList ∈ game_time_tokens by decide)
    have h13 := hno _ (show "%s".toList ∈ game_time_tokens by decide)
    have h14 := hno _ (show "%ri".toList ∈ game_time_tokens by decide)
    have h15 := hno _ (show "%r".toList ∈ game_time_tokens by decide)
    simp only [game_time, if_neg hguard, game_time_format]
    rw [replace_all_no_occ _ _ _ h01, replace_all_no_occ _ _ _ h02,
      replace_all_no_occ _ _ _ h03, replace_all_no_occ _ _ _ h04,
      replace_all_no_occ _ _ _ h05, replace_all_no_occ _ _ _ h06,
      replace_all_no_occ _ _ _ h07, replace_all_no_occ _ _ _ h08,
      replace_all_no_occ _ _ _ h09, replace_all_no_occ _ _ _ h10,
      replace_all_no_occ _ _ _ h11, replace_all_no_occ _ _ _ h12,
      replace_all_no_occ _ _ _ h13, replace_all_no_occ _ _ _ h14,
      replace_all_no_occ _ _ _ h15]
  · intro px py pz world cell fmt hfx hfy hfz hno
    have hguard : ¬ (px.finite = false ∨ py.finite = false ∨ pz.finite = false) := by
      simp [hfx, hfy, hfz]
    have h01 := hno _ (show "%x".toList ∈ location_tokens by decide)
    have h02 := hno _ (show "%y".toList ∈ location_tokens by decide)
    have h03 := hno _ (show "%z".toList ∈ location_tokens by decide)
    have h04 := hno _ (show "%cx".toList ∈ location_tokens by decide)
    have h05 := hno _ (show "%cy".toList ∈ location_tokens by decide)
    have h06 := hno _ (show "%wn".toList ∈ location_tokens by decide)
    have h07 := hno _ (show "%cn".toList ∈ location_tokens by decide)
    cases world <;> cases cell <;>
      · simp only [player_location, if_neg hguard]
        rw [replace_all_no_occ _ _ _ h01, replace_all_no_occ _ _ _ h02,
          replace_all_no_occ _ _ _ h03, replace_all_no_occ _ _ _ h04,
          replace_all_no_occ _ _ _ h05, replace_all_no_occ _ _ _ h06,
          replace_all_no_occ _ _ _ h07]

/-- Witness for C8: a format with no escapes passes through unchanged. -/
theorem claim_C8_no_escape_witness :
    replace_all ("abc".toList) ("%q".toList) ("R".toList) = "abc".toList
    ∧ game_time (some ⟨0, true, true⟩) ("hello".toList) = "hello".toList
    ∧ player_location (some (⟨0, true, true⟩, ⟨0, true, true⟩, ⟨0, true, true⟩)) none none
        ("hello".toList) = "hello".toList :=
  ⟨claim_C8_no_escape.1 _ _ _ (by decide),
   claim_C8_no_escape.2.1 ⟨0, true, true⟩ _ rfl (by simp) (by decide),
   claim_C8_no_escape.2.2 ⟨0, true, true⟩ ⟨0, true, true⟩ ⟨0, true, true⟩ none none _
     rfl rfl rfl (by decide)⟩

/-! ## Calendar lemmas and claims -/

theorem game_time_calendar_at_0_45 : game_time_calendar (9/20) =
    { h := 10, m := 48, s := 0, d := 228, y := 201, yd := 229, wd := 0, mo := 7, md := 17 } := by
  simp only [game_time_calendar, c_trunc, wrap32, int32Min, int32Max, monthsTable,
    lower_bound_count]
  norm_num
  decide

theorem game_time_calendar_at_0 : game_time_calendar 0 =
    { h := 0, m := 0, s := 0, d := 228, y := 201, yd := 229, wd := 0, mo := 7, md := 17 } := by
  simp only [game_time_calendar, c_trunc, wrap32, int32Min, int32Max, monthsTable,
    lower_bound_count]
  norm_num
  decide

theorem game_time_calendar_at_136 : game_time_calendar 136 =
    { h := 0, m := 0, s := 0, d := 364, y := 201, yd := 365, wd := 3, mo := 11, md := 31 } := by
  simp only [game_time_calendar, c_trunc, wrap32, int32Min, int32Max, monthsTable,
    lower_bound_count]
  norm_num
  decide

theorem float_chars_at_0_45 : float_chars (9/20) = "0.450000".toList := by
  have habs : |(9/20 : ℚ)| = 9/20 := by norm_num
  have hfl : Int.floor ((9/20 : ℚ) * 1000000 + 1/2) = 450000 := by norm_num
  have hneg : ¬ ((9/20 : ℚ) < 0) := by norm_num
  simp only [float_chars, q_floor, habs, hfl, if_neg hneg]
  decide

theorem float_chars_at_0 : float_chars 0 = "0.000000".toList := by
  have habs : |(0 : ℚ)| = 0 := by norm_num
  have hfl : Int.floor ((0 : ℚ) * 1000000 + 1/2) = 0 := by norm_num
  have hneg : ¬ ((0 : ℚ) < 0) := by norm_num
  simp only [float_chars, q_floor, habs, hfl, if_neg hneg]
  decide

/-- C2: the calendar conversion of the raw value 0.45 yields weekday name
"Sundas" for the %ld escape and hour "10" for the %h escape; and the
conversion of the raw value 0.0 yields "Sundas" for %ld, 0 for %h, %m and %s,
"201" for %y, month number 8 ("Last Seed") for %mo and %lm, and 17 for %md. -/
theorem claim_C2_calendar_examples :
    (game_time_format (9/20) ("%ld".toList) = "Sundas".toList
      ∧ game_time_format (9/20) ("%h".toList) = "10".toList)
    ∧ (game_time_format 0 ("%ld".toList) = "Sundas".toList
      ∧ game_time_format 0 ("%h".toList) = "0".toList
      ∧ game_time_format 0 ("%m".toList) = "0".toList
      ∧ game_time_format 0 ("%s".toList) = "0".toList
      ∧ game_time_format 0 ("%y".toList) = "201".toList
      ∧ (game_time_calendar 0).mo + 1 = 8
      ∧ game_time_format 0 ("%mo".toList) = "8".toList
      ∧ game_time_format 0 ("%lm".toList) = "Last Seed".toList
      ∧ game_time_format 0 ("%md".toList) = "17".toList) := by
  constructor
  · constructor <;>
      · simp only [game_time_format]
        rw [game_time_calendar_at_0_45, float_chars_at_0_45]
        decide
  · refine ⟨?_, ?_, ?_, ?_, ?_, ?_, ?_, ?_, ?_⟩
    · simp only [game_time_format]
      rw [game_time_calendar_at_0, float_chars_at_0]
      decide
    · simp only [game_time_format]
      rw [game_time_calendar_at_0, float_chars_at_0]
      decide
    · simp only [game_time_format]
      rw [game_time_calendar_at_0, float_chars_at_0]
      decide
    · simp only [game_time_format]
      rw [game_time_calendar_at_0, float_chars_at_0]
      decide
    · simp only [game_time_format]
      rw [game_time_calendar_at_0, float_chars_at_0]
      decide
    · rw [game_time_calendar_at_0]
    · simp only [game_time_format]
      rw [game_time_calendar_at_0, float_chars_at_0]
      decide
    · simp only [game_time_format]
      rw [game_time_calendar_at_0, float_chars_at_0]
      decide
    · simp only [game_time_format]
      rw [game_time_calendar_at_0, float_chars_at_0]
      decide

/-- C6: a day-of-year of 365 (the last day of a year) maps under the
lower-bound search over the cumulative month table to month index 11 (the
last month, never an out-of-range thirteenth) and day-of-month
31 = 365 - 334; reached e.g. from the raw value 136. -/
theorem claim_C6_year_end :
    lower_bound_count 365 monthsTable = 11
    ∧ lower_bound_count 365 monthsTable < monthsTable.length
    ∧ (365 : Int) - monthsTable.getD 10 0 = 31
    ∧ (game_time_calendar 136).yd = 365
    ∧ (game_time_calendar 136).mo = 11
    ∧ (game_time_calendar 136).md = 31 := by
  refine ⟨by decide, by decide, by decide, ?_, ?_, ?_⟩ <;>
    rw [game_time_calendar_at_136]

theorem lower_bound_count_le_length (v : Int) :
    ∀ l : List Int, lower_bound_count v l ≤ l.length := by
  intro l
  induction l with
  | nil => simp [lower_bound_count]
  | cons a rest ih =>
    simp only [lower_bound_count, List.length_cons]
    by_cases h : a < v
    · rw [if_pos h]
      omega
    · rw [if_neg h]
      omega

theorem lower_bound_count_eq_length (v : Int) :
    ∀ l : List Int, lower_bound_count v l = l.length → ∀ x ∈ l, x < v := by
  intro l
  induction l with
  | nil =>
    intro h x hx
    simp at hx
  | cons a rest ih =>
    intro h x hx
    simp only [lower_bound_count, List.length_cons] at h
    by_cases ha : a < v
    · rw [if_pos ha] at h
      rcases List.mem_cons.mp hx with rfl | hx2
      · exact ha
      · exact ih (by omega) x hx2
    · rw [if_neg ha] at h
      omega

theorem lower_bound_count_monthsTable_le (v : Int) (hvle : v ≤ 365) :
    lower_bound_count v monthsTable ≤ 11 := by
  have h1 := lower_bound_count_le_length v monthsTable
  by_cases h : lower_bound_count v monthsTable = monthsTable.length
  · have h365 : (365 : Int) < v :=
      lower_bound_count_eq_length v monthsTable h 365 (by decide)
    omega
  · have h12 : monthsTable.length = 12 := rfl
    omega

theorem game_time_calendar_d (r : ℚ) :
    (game_time_calendar r).d = wrap32 (c_trunc r + 228) := rfl

theorem game_time_calendar_yd (r : ℚ) :
    (game_time_calendar r).yd = Int.tmod ((game_time_calendar r).d) 365 + 1 := rfl

theorem game_time_calendar_wd (r : ℚ) :
    (game_time_calendar r).wd = Int.tmod (wrap32 ((game_time_calendar r).d + 3)) 7 := rfl

theorem game_time_calendar_mo (r : ℚ) :
    (game_time_calendar r).mo = lower_bound_count ((game_time_calendar r).yd) monthsTable := rfl

theorem wrap32_eq_self (t : Int) (h1 : int32Min ≤ t) (h2 : t ≤ int32Max) :
    wrap32 t = t := by
  simp only [wrap32, int32Min, int32Max] at h1 h2 ⊢
  omega

/-- In the range where the truncated value and the later +228/+3 additions
stay inside 32-bit `int`, the C cast is the exact floor of the (nonnegative)
value. -/
theorem c_trunc_of_range (q : ℚ) (h0 : ¬ q < 0) (hq : q < 2 ^ 31 - 231) :
    c_trunc q = Int.floor q ∧ 0 ≤ c_trunc q ∧ c_trunc q + 231 ≤ int32Max := by
  have h0q : (0 : ℚ) ≤ q := not_lt.mp h0
  have hfl0 : 0 ≤ Int.floor q := Int.floor_nonneg.mpr h0q
  have hflu : Int.floor q < 2147483417 := by
    apply Int.floor_lt.mpr
    push_cast
    norm_num at hq ⊢
    exact hq
  have hcond : ¬ (Int.floor q < int32Min ∨ int32Max < Int.floor q) := by
    simp only [int32Min, int32Max]
    omega
  have hceq : c_trunc q = Int.floor q := by
    simp only [c_trunc, if_neg h0, if_neg hcond]
  refine ⟨hceq, by omega, ?_⟩
  simp only [int32Max]
  omega

/-- Bounds of the derived calendar fields for a guard-passing value that
keeps the 32-bit conversions in range. -/
theorem game_time_calendar_in_range (r : ℚ) (h0 : ¬ r < 0) (hr : r < 2 ^ 31 - 231) :
    (1 ≤ (game_time_calendar r).yd ∧ (game_time_calendar r).yd ≤ 365)
    ∧ (game_time_calendar r).mo ≤ 11
    ∧ (0 ≤ (game_time_calendar r).wd ∧ (game_time_calendar r).wd < 7) := by
  rcases c_trunc_of_range r h0 hr with ⟨hceq, hc0, hcu⟩
  simp only [int32Max] at hcu
  have hd : (game_time_calendar r).d = c_trunc r + 228 := by
    rw [game_time_calendar_d]
    apply wrap32_eq_self <;> simp only [int32Min, int32Max] <;> omega
  have hd0 : 0 ≤ (game_time_calendar r).d := by omega
  have hd3 : wrap32 ((game_time_calendar r).d + 3) = (game_time_calendar r).d + 3 := by
    apply wrap32_eq_self <;> simp only [int32Min, int32Max] <;> omega
  have hyd1 : 0 ≤ Int.tmod ((game_time_calendar r).d) 365 := Int.tmod_nonneg _ hd0
  have hyd2 : Int.tmod ((game_time_calendar r).d) 365 < 365 :=
    Int.tmod_lt_of_pos _ (by norm_num)
  have hydb : 1 ≤ (game_time_calendar r).yd ∧ (game_time_calendar r).yd ≤ 365 := by
    rw [game_time_calendar_yd]
    omega
  have hwd1 : 0 ≤ Int.tmod ((game_time_calendar r).d + 3) 7 := Int.tmod_nonneg _ (by omega)
  have hwd2 : Int.tmod ((game_time_calendar r).d + 3) 7 < 7 :=
    Int.tmod_lt_of_pos _ (by norm_num)
  have hwdb : 0 ≤ (game_time_calendar r).wd ∧ (game_time_calendar r).wd < 7 := by
    rw [game_time_calendar_wd, hd3]
    omega
  have hmo : (game_time_calendar r).mo ≤ 11 := by
    rw [game_time_calendar_mo]
    exact lower_bound_count_monthsTable_le _ hydb.2
  exact ⟨hydb, hmo, hwdb⟩

theorem game_time_calendar_at_1e10 : game_time_calendar 10000000000 =
    { h := -2147483648, m := -2147483648, s := -2147483648, d := -2147483420,
      y := -5883315, yd := -79, wd := -2, mo := 0, md := -79 } := by
  simp only [game_time_calendar, c_trunc, wrap32, int32Min, int32Max, monthsTable,
    lower_bound_count]
  norm_num
  decide

/-- C3 (corrected: the source's `int` is 32 bits wide, so the substituted
half needs the value in range): the epoch-time renderer returns the sentinel
"(n/a)", with no escape substitution performed, exactly in the cases where
the chain did not resolve or the float read at the leaf is non-normal or
negative; for every other input whose value also stays below 2³¹ - 231 — so
the int conversions of the calendar arithmetic are defined — it returns the
format string with the calendar escapes substituted (the substitution chain
`game_time_format`, whose weekday and month name lookups are then in
bounds).  For larger guard-passing values the weekday lookup of the
substitution path is out of bounds in the source; see the counterexample. -/
theorem claim_C3_game_time_guard :
    (∀ fmt, game_time none fmt = naChars)
    ∧ (∀ (f : GFloat) (fmt : List Char), f.normal = false ∨ f.val < 0 →
        game_time (some f) fmt = naChars)
    ∧ (∀ (f : GFloat) (fmt : List Char), f.normal = true → ¬ f.val < 0 →
        f.val < 2 ^ 31 - 231 →
        game_time (some f) fmt = game_time_format f.val fmt
          ∧ (0 ≤ (game_time_calendar f.val).wd
              ∧ (game_time_calendar f.val).wd.toNat < longwday.length
              ∧ (game_time_calendar f.val).wd.toNat < shrtwday.length
              ∧ (game_time_calendar f.val).mo < longmon.length)) := by
  refine ⟨fun fmt => rfl, ?_, ?_⟩
  · intro f fmt h
    simp only [game_time, if_pos h]
  · intro f fmt hn hv hrange
    have hguard : ¬ (f.normal = false ∨ f.val < 0) := by simp [hn, hv]
    rcases game_time_calendar_in_range f.val hv hrange with ⟨hydb, hmo, hwdb⟩
    have hl2 : longmon.length = 12 := rfl
    have hl5 : longwday.length = 7 := rfl
    have hl6 : shrtwday.length = 7 := rfl
    refine ⟨by simp only [game_time, if_neg hguard], ?_, ?_, ?_, ?_⟩ <;> omega

/-- C3 counterexample: 1e10 is a normal nonnegative float value, so
`game_time` takes the substitution branch, yet the weekday index that branch
uses is -2 — the source's `longwday[wd]` and `shrtwday[wd]` lookups (lines
260-261) are out of bounds there, so no substituted format string is
produced, refuting the claim's universal "for every other input" half. -/
theorem claim_C3_game_time_guard_counterexample :
    (GFloat.mk 10000000000 true true).normal = true
    ∧ ¬ (GFloat.mk 10000000000 true true).val < 0
    ∧ (game_time_calendar 10000000000).wd = -2
    ∧ (game_time_calendar 10000000000).wd < 0 := by
  refine ⟨rfl, (by norm_num : ¬ (10000000000 : ℚ) < 0), ?_, ?_⟩ <;>
    · rw [game_time_calendar_at_1e10]
      try decide

/-- Witness for C3: a non-normal read yields the sentinel; a normal
nonnegative in-range read yields the substituted format. -/
theorem claim_C3_game_time_guard_witness :
    game_time (some ⟨5, false, true⟩) ("%h".toList) = naChars
    ∧ game_time (some ⟨0, true, true⟩) ("%h".toList) = game_time_format 0 ("%h".toList) :=
  ⟨claim_C3_game_time_guard.2.1 ⟨5, false, true⟩ _ (Or.inl rfl),
   (claim_C3_game_time_guard.2.2 ⟨0, true, true⟩ _ rfl (by simp) (by norm_num)).1⟩

/-- C9 (corrected: the source's `int` is 32 bits wide, so the bounds need the
value to keep the conversions in range): for every float that passes the
calendar guard (normal and nonnegative) and whose value stays below
2³¹ - 231 — so that the float-to-int cast and the +228/+3 additions are
defined — the derived day-of-year lies in 1..365, the lower-bound month
search never returns the end position of the 12-entry table, the weekday
index lies in 0..6, and hence every lookup into the month-name and
weekday-name tables is in bounds.  Beyond that range the cast overflows; see
the counterexample. -/
theorem claim_C9_calendar_bounds (f : GFloat) (_hn : f.normal = true) (hv : ¬ f.val < 0)
    (hrange : f.val < 2 ^ 31 - 231) :
    (1 ≤ (game_time_calendar f.val).yd ∧ (game_time_calendar f.val).yd ≤ 365)
    ∧ (game_time_calendar f.val).mo < monthsTable.length
    ∧ (game_time_calendar f.val).mo < longmon.length
    ∧ (game_time_calendar f.val).mo < birtmon.length
    ∧ (game_time_calendar f.val).mo < argomon.length
    ∧ (0 ≤ (game_time_calendar f.val).wd ∧ (game_time_calendar f.val).wd < 7)
    ∧ (game_time_calendar f.val).wd.toNat < longwday.length
    ∧ (game_time_calendar f.val).wd.toNat < shrtwday.length := by
  rcases game_time_calendar_in_range f.val hv hrange with ⟨hydb, hmo, hwdb⟩
  have hl1 : monthsTable.length = 12 := rfl
  have hl2 : longmon.length = 12 := rfl
  have hl3 : birtmon.length = 12 := rfl
  have hl4 : argomon.length = 12 := rfl
  have hl5 : longwday.length = 7 := rfl
  have hl6 : shrtwday.length = 7 := rfl
  refine ⟨hydb, ?_, ?_, ?_, ?_, hwdb, ?_, ?_⟩ <;> omega

/-- C9 counterexample: the float value 1e10 (exactly representable as a
32-bit float, normal and nonnegative) passes the calendar guard, yet the
float-to-int cast overflows — the x64 target yields INT_MIN — so the
day-of-year becomes -79 ∉ 1..365 and the weekday index -2, below every valid
index of the 7-entry weekday tables, refuting the claim as stated. -/
theorem claim_C9_calendar_bounds_counterexample :
    (GFloat.mk 10000000000 true true).normal = true
    ∧ ¬ (GFloat.mk 10000000000 true true).val < 0
    ∧ (game_time_calendar 10000000000).yd = -79
    ∧ ¬ (1 ≤ (game_time_calendar 10000000000).yd
          ∧ (game_time_calendar 10000000000).yd ≤ 365)
    ∧ (game_time_calendar 10000000000).wd = -2 := by
  refine ⟨rfl, (by norm_num : ¬ (10000000000 : ℚ) < 0), ?_, ?_, ?_⟩ <;>
    · rw [game_time_calendar_at_1e10]
      try decide

/-- Witness for C9: the bounds evaluated at the raw value 0 (a nonnegative
in-range reading flagged normal). -/
theorem claim_C9_calendar_bounds_witness :
    (1 ≤ (game_time_calendar (0 : ℚ)).yd ∧ (game_time_calendar (0 : ℚ)).yd ≤ 365)
    ∧ (game_time_calendar (0 : ℚ)).mo < monthsTable.length
    ∧ (game_time_calendar (0 : ℚ)).mo < longmon.length
    ∧ (game_time_calendar (0 : ℚ)).mo < birtmon.length
    ∧ (game_time_calendar (0 : ℚ)).mo < argomon.length
    ∧ (0 ≤ (game_time_calendar (0 : ℚ)).wd ∧ (game_time_calendar (0 : ℚ)).wd < 7)
    ∧ (game_time_calendar (0 : ℚ)).wd.toNat < longwday.length
    ∧ (game_time_calendar (0 : ℚ)).wd.toNat < shrtwday.length :=
  claim_C9_calendar_bounds ⟨0, true, true⟩ rfl (by simp) (by norm_num)

end SSEJournal
